import Mathlib

/-!
Verification of the debuggee-side breakpoint registry of `ansibug`
(`src/ansibug/_debuggee.py`).

The embedding models Python strings as lists of characters, Python
`list[int | None]` line-classification tables as `List (Option Nat)`
(`none` = continuation line), and the mutable `AnsibleDebugger` object as an
explicit state record threaded through the operations.  Outbound protocol
messages placed on the send queue by `AnsibleDebugger.send` are recorded in
the `sent` field; `send` drops the message when the send queue is inactive,
exactly as the source does.
-/

namespace Ansibug

/-- Python `str`, modelled as a sequence of characters. -/
abbrev Str := List Char

/-- `PathMapping` from `_debuggee.py`: maps a local path root to the
equivalent remote path root. -/
structure PathMapping where
  local_root : Str
  remote_root : Str
deriving DecidableEq, Repr

/-- The three distinct breakpoint message strings produced by
`_debuggee.py` (modelled as an enumeration; the exact wording lives in the
source). -/
inductive BpMessage where
  /-- "Breakpoint cannot be set here." -/
  | cannotSetHere
  /-- "Cannot set breakpoint on a modified source." -/
  | modifiedSource
  /-- "File has not been loaded by Ansible, cannot detect breakpoints yet." -/
  | notLoaded
deriving DecidableEq, Repr

/-- The fields of `dap.Breakpoint` that `_debuggee.py` sets and reads.
The pass-through `source` field (always the request's own source object) is
omitted. -/
structure Breakpoint where
  id : Nat
  verified : Bool
  message : Option BpMessage
  line : Option Nat
  endLine : Option Nat
deriving DecidableEq, Repr

/-- `AnsibleLineBreakpoint` from `_debuggee.py`.  The stored
`source_breakpoint` is only ever read through its `line` field, which is
what `source_breakpoint_line` records. -/
structure AnsibleLineBreakpoint where
  id : Nat
  source_breakpoint_line : Nat
  breakpoint : Breakpoint
  actual_path : Str
  source_path : Str
deriving DecidableEq, Repr

/-- Outbound protocol messages that the modelled operations put on the send
queue.  `BreakpointEvent` always carries reason "changed" in the source, so
the reason is not modelled. -/
inductive OutMsg where
  | breakpointChanged (bp : Breakpoint)
  | setBreakpointsResponse (bps : List Breakpoint)
deriving DecidableEq, Repr

/-- A per-path line-classification table: Python `list[int | None]`.
`none` is a continuation line, `some 0` an invalid line, `some 1` the start
of a breakpoint range. -/
abbrev Table := List (Option Nat)

/-- Indexing `T[i]` on a classification table; out-of-range reads yield
`none` (the source only indexes in range on the tables it builds, see the
termination theorem for the backward scan). -/
def slot : Table → Nat → Option Nat
  | [], _ => none
  | x :: _, 0 => x
  | _ :: xs, n + 1 => slot xs n

/-- The table update performed by `register_path_breakpoint`:
`file_lines.extend([None] * (1 + line - len(file_lines)))` followed by
`file_lines[line] = bp_type`.  Natural subtraction matches Python, where a
negative replication count produces the empty list. -/
def updatedTable (T0 : Table) (line : Nat) (bp_type : Nat) : Table :=
  (T0 ++ List.replicate (1 + line - T0.length) none).set line (some bp_type)

/-- The backward scan of the resolution algorithm:
`while line_type is None: start -= 1`.  On the tables the source builds,
index 0 never holds `None`, so the scan stops at or before index 0; the
base case at 0 records that bound. -/
def findStart (T : Table) : Nat → Nat
  | 0 => 0
  | s + 1 => if slot T (s + 1) = none then findStart T s else s + 1

/-- Fuelled version of the forward scan
`while end_line < len(file_lines) and file_lines[end_line] is None`.
The scan advances by at most `T.length - e` steps, which is the fuel
`findEnd` supplies. -/
def findEndAux (T : Table) : Nat → Nat → Nat
  | 0, e => e
  | fuel + 1, e =>
    if e < T.length ∧ slot T e = none then findEndAux T fuel (e + 1) else e

/-- The forward scan of the resolution algorithm, starting at index `e`. -/
def findEnd (T : Table) (e : Nat) : Nat :=
  findEndAux T (T.length - e) e

/-- The breakpoint line-resolution algorithm shared by the
`SetBreakpointsRequest` handler and `register_path_breakpoint` (the source
duplicates this block in both places, with a FIXME noting the duplication).
Returns `(verified, start_line, end_line)` where
`start_line = min(L, len(T) - 1)` scanned backwards to a non-continuation
slot, and `end_line = min(next_non_continuation_index - 1, len(T))`. -/
def resolveLine (T : Table) (req : Nat) : Bool × Nat × Nat :=
  let start := findStart T (min req (T.length - 1))
  let endL := min (findEnd T (start + 1) - 1) T.length
  (if slot T start = some 0 then false else true, start, endL)

/-- The `dap.Breakpoint` value built from a resolution result, as in both
copies of the resolution block: unverified with message "Breakpoint cannot
be set here." exactly when the effective classification is invalid. -/
def resolvedBreakpoint (T : Table) (bp_id : Nat) (req : Nat) : Breakpoint :=
  let r := resolveLine T req
  { id := bp_id
    verified := r.1
    message := if r.1 then none else some BpMessage.cannotSetHere
    line := some r.2.1
    endLine := some r.2.2 }

/-- Association-list lookup modelling `dict.get` on `_source_info`. -/
def lookupSrc : List (Str × Table) → Str → Option Table
  | [], _ => none
  | (q, U) :: rest, p => if q = p then some U else lookupSrc rest p

/-- Association-list write modelling `dict.__setitem__`/`setdefault` on
`_source_info`: overwrite in place when the key exists, append otherwise. -/
def setSrc : List (Str × Table) → Str → Table → List (Str × Table)
  | [], p, T => [(p, T)]
  | (q, U) :: rest, p, T =>
    if q = p then (q, T) :: rest else (q, U) :: setSrc rest p T

/-- The mutable state of the `AnsibleDebugger` singleton that the breakpoint
registry and dispatcher operate on.  Fields not read by any modelled
operation (the threading events, the thread/stackframe/variable counters,
the receive thread handle) are omitted.  `sent` records the messages
accepted onto the send queue, in enqueue order. -/
structure DebuggerState where
  debug_config : List PathMapping
  send_queue_active : Bool
  sent : List OutMsg
  breakpoints : List AnsibleLineBreakpoint
  breakpoint_counter : Nat
  source_info : List (Str × Table)
deriving DecidableEq, Repr

/-- The freshly constructed `AnsibleDebugger`: no mappings, inactive send
queue, no breakpoints, breakpoint counter 1, no classification tables. -/
def initState : DebuggerState :=
  { debug_config := []
    send_queue_active := false
    sent := []
    breakpoints := []
    breakpoint_counter := 1
    source_info := [] }

/-- `AnsibleDebugger.send`: enqueue the message while the send queue is
active, silently discard it otherwise. -/
def send (st : DebuggerState) (m : OutMsg) : DebuggerState :=
  if st.send_queue_active then { st with sent := st.sent ++ [m] } else st

/-- The per-breakpoint body of the refresh loop in
`register_path_breakpoint`: breakpoints for other paths are untouched; a
breakpoint for `path` is re-resolved against the updated table and, when
its verified flag, start line or end line changed, its stored
`dap.Breakpoint` is replaced and a `BreakpointEvent` payload is produced. -/
def refreshBp (T : Table) (path : Str) (bp : AnsibleLineBreakpoint) :
    AnsibleLineBreakpoint × Option OutMsg :=
  if bp.actual_path = path then
    let nb := resolvedBreakpoint T bp.id bp.source_breakpoint_line
    if bp.breakpoint.verified ≠ nb.verified ∨ bp.breakpoint.line ≠ nb.line ∨
        bp.breakpoint.endLine ≠ nb.endLine then
      ({ bp with breakpoint := nb }, some (OutMsg.breakpointChanged nb))
    else (bp, none)
  else (bp, none)

/-- The classification table stored for `path` by
`register_path_breakpoint`: the existing table (seeded to `[0]` by
`setdefault` when absent) extended and written at `line`. -/
def regT (st : DebuggerState) (path : Str) (line bp_type : Nat) : Table :=
  updatedTable ((lookupSrc st.source_info path).getD [some 0]) line bp_type

/-- `AnsibleDebugger.register_path_breakpoint`: `setdefault` the table for
`path` to `[0]`, extend it with continuation slots up to `line`, write
`bp_type` at `line`, then re-resolve every stored breakpoint for `path`,
sending a `BreakpointEvent` for each one whose resolution changed.  Each
event goes through `send`; the send-queue-active flag cannot change during
the call, so the per-event check is the single check modelled here. -/
def register_path_breakpoint (st : DebuggerState) (path : Str)
    (line : Nat) (bp_type : Nat) : DebuggerState :=
  let file_lines := regT st path line bp_type
  let refreshed := st.breakpoints.map (refreshBp file_lines path)
  { st with
    source_info := setSrc st.source_info path file_lines
    breakpoints := refreshed.map Prod.fst
    sent := st.sent ++
      (if st.send_queue_active then refreshed.filterMap Prod.snd else []) }

/-- The path translation at the top of the `SetBreakpointsRequest` handler:
the first configured mapping whose `local_root` is a literal prefix of the
client path replaces that prefix with `remote_root`; no match leaves the
path unchanged. -/
def applyMappings : List PathMapping → Str → Str
  | [], p => p
  | m :: rest, p =>
    if m.local_root.isPrefixOf p then
      m.remote_root ++ p.drop m.local_root.length
    else applyMappings rest p

/-- `AnsibleDebugger.convert_to_client_path`: the inverse direction — the
first configured mapping whose `remote_root` is a prefix of the path
replaces that prefix with `local_root`; no match leaves the path
unchanged. -/
def convert_to_client_path : List PathMapping → Str → Str
  | [], p => p
  | m :: rest, p =>
    if m.remote_root.isPrefixOf p then
      m.local_root ++ p.drop m.remote_root.length
    else convert_to_client_path rest p

/-- Python truthiness of `not source_info` in the handler: true for a
missing table and for an empty one. -/
def tableMissing : Option Table → Bool
  | none => true
  | some T => T.isEmpty

/-- The per-requested-line loop of the `SetBreakpointsRequest` handler.
Returns the stored `AnsibleLineBreakpoint`s (in order), the response
breakpoint list (in request order) and the final breakpoint counter.
A modified source yields a transient unverified entry that is not stored;
a missing table yields a stored unverified "not loaded" entry carrying only
the requested line; otherwise the resolution algorithm runs and the result
is stored. -/
def sbLoop (source_modified : Bool) (tbl : Option Table)
    (source_path actual_path : Str) :
    List Nat → Nat → List AnsibleLineBreakpoint × List Breakpoint × Nat
  | [], ctr => ([], [], ctr)
  | reqLine :: rest, ctr =>
    let bp_id := ctr
    if source_modified then
      let bp : Breakpoint :=
        { id := bp_id
          verified := false
          message := some BpMessage.modifiedSource
          line := none
          endLine := none }
      let r := sbLoop source_modified tbl source_path actual_path rest (ctr + 1)
      (r.1, bp :: r.2.1, r.2.2)
    else
      let bp : Breakpoint :=
        if tableMissing tbl then
          { id := bp_id
            verified := false
            message := some BpMessage.notLoaded
            line := some reqLine
            endLine := none }
        else resolvedBreakpoint (tbl.getD []) bp_id reqLine
      let alb : AnsibleLineBreakpoint :=
        { id := bp_id
          source_breakpoint_line := reqLine
          breakpoint := bp
          actual_path := actual_path
          source_path := source_path }
      let r := sbLoop source_modified tbl source_path actual_path rest (ctr + 1)
      (alb :: r.1, bp :: r.2.1, r.2.2)

/-- The `SetBreakpointsRequest` handler of `process_message`: translate the
client path, fetch the table for the translated path, drop every stored
breakpoint whose client source path equals the request's path, process the
requested lines, store the resulting breakpoints, and send the response.
Returns the new state and the response breakpoint list. -/
def process_set_breakpoints (st : DebuggerState) (source_path : Str)
    (source_modified : Bool) (req_lines : List Nat) :
    DebuggerState × List Breakpoint :=
  let actual_path := applyMappings st.debug_config source_path
  let tbl := lookupSrc st.source_info actual_path
  let kept := st.breakpoints.filter fun b => b.source_path ≠ source_path
  let r := sbLoop source_modified tbl source_path actual_path req_lines
    st.breakpoint_counter
  let st' :=
    { st with breakpoints := kept ++ r.1, breakpoint_counter := r.2.2 }
  (send st' (OutMsg.setBreakpointsResponse r.2.1), r.2.1)

/-- The breakpoint-match condition of `AnsibleDebugger.get_breakpoint`:
matching runtime path, `line` at or after the resolved start line (a
missing start matches everything) and at or before the resolved end line
(a missing end matches everything). -/
def bpMatches (b : AnsibleLineBreakpoint) (path : Str) (line : Nat) : Bool :=
  decide (b.actual_path = path) &&
    (match b.breakpoint.line with
     | none => true
     | some l => decide (l ≤ line)) &&
    (match b.breakpoint.endLine with
     | none => true
     | some e => decide (line ≤ e))

/-- The `for b in self._breakpoints.values()` scan of `get_breakpoint`,
returning the first stored breakpoint that matches. -/
def firstBp : List AnsibleLineBreakpoint → Str → Nat →
    Option AnsibleLineBreakpoint
  | [], _, _ => none
  | b :: rest, p, l => if bpMatches b p l then some b else firstBp rest p l

/-- `AnsibleDebugger.get_breakpoint`: nothing while no transport session is
active, otherwise the first stored breakpoint matching the queried runtime
path and line. -/
def get_breakpoint (st : DebuggerState) (path : Str) (line : Nat) :
    Option AnsibleLineBreakpoint :=
  if st.send_queue_active then firstBp st.breakpoints path line else none

/-- The operations through which callers mutate the registry state:
the runtime's classification feed, the client's set-breakpoints request,
the debug-configuration output event, and the transport session opening
(`connection_made`) and closing (the drain in `_recv_task`). -/
inductive DebugOp where
  | registerLine (path : Str) (line : Nat) (bp_type : Nat)
  | setBreakpoints (source_path : Str) (source_modified : Bool)
      (lines : List Nat)
  | setDebugConfig (mappings : List PathMapping)
  | connectionMade
  | sessionEnd
deriving DecidableEq, Repr

/-- One operation applied to the debugger state. -/
def step (st : DebuggerState) : DebugOp → DebuggerState
  | DebugOp.registerLine p l t => register_path_breakpoint st p l t
  | DebugOp.setBreakpoints p m ls => (process_set_breakpoints st p m ls).1
  | DebugOp.setDebugConfig ms => { st with debug_config := ms }
  | DebugOp.connectionMade => { st with send_queue_active := true }
  | DebugOp.sessionEnd => { st with send_queue_active := false }

/-- A sequence of operations applied in order. -/
def runOps (st : DebuggerState) (ops : List DebugOp) : DebuggerState :=
  ops.foldl step st

/-! ### Basic facts about table indexing -/

theorem slot_eq_none_of_le : ∀ (T : Table) (i : Nat), T.length ≤ i →
    slot T i = none
  | [], _, _ => rfl
  | _ :: _, 0, h => by simp at h
  | _ :: xs, i + 1, h => slot_eq_none_of_le xs i (by simpa using h)

theorem slot_append_left : ∀ (T U : Table) (i : Nat), i < T.length →
    slot (T ++ U) i = slot T i
  | [], _, _, h => by simp at h
  | x :: xs, U, 0, _ => rfl
  | x :: xs, U, i + 1, h => slot_append_left xs U i (by simpa using h)

theorem slot_append_right : ∀ (T U : Table) (i : Nat), T.length ≤ i →
    slot (T ++ U) i = slot U (i - T.length)
  | [], _, _, _ => by simp
  | _ :: _, _, 0, h => by simp at h
  | x :: xs, U, i + 1, h => by
    simpa using slot_append_right xs U i (by simpa using h)

theorem slot_replicate_none : ∀ (n i : Nat),
    slot (List.replicate n none) i = none
  | 0, _ => rfl
  | _ + 1, 0 => rfl
  | n + 1, i + 1 => slot_replicate_none n i

theorem slot_set_self : ∀ (T : Table) (i : Nat) (v : Option Nat),
    i < T.length → slot (T.set i v) i = v
  | [], _, _, h => by simp at h
  | x :: xs, 0, v, _ => rfl
  | x :: xs, i + 1, v, h => slot_set_self xs i v (by simpa using h)

theorem slot_set_ne : ∀ (T : Table) (j i : Nat) (v : Option Nat), i ≠ j →
    slot (T.set j v) i = slot T i
  | [], _, _, _, _ => rfl
  | x :: xs, 0, 0, v, h => absurd rfl h
  | x :: xs, 0, i + 1, v, _ => rfl
  | x :: xs, j + 1, 0, v, _ => rfl
  | x :: xs, j + 1, i + 1, v, h =>
    slot_set_ne xs j i v (fun hc => h (by omega))

theorem slot_append_replicate (T : Table) (n i : Nat) :
    slot (T ++ List.replicate n none) i = slot T i := by
  rcases Nat.lt_or_ge i T.length with h | h
  · exact slot_append_left T _ i h
  · rw [slot_append_right T _ i h, slot_replicate_none,
      slot_eq_none_of_le T i h]

/-! ### The table update of `register_path_breakpoint` -/

theorem updatedTable_length (T0 : Table) (line t : Nat) :
    (updatedTable T0 line t).length = max T0.length (line + 1) := by
  simp [updatedTable]
  omega

theorem slot_updatedTable_self (T0 : Table) (line t : Nat) :
    slot (updatedTable T0 line t) line = some t := by
  unfold updatedTable
  apply slot_set_self
  simp
  omega

theorem slot_updatedTable_ne (T0 : Table) (line t i : Nat) (h : i ≠ line) :
    slot (updatedTable T0 line t) i = slot T0 i := by
  unfold updatedTable
  rw [slot_set_ne _ _ _ _ h, slot_append_replicate]

/-! ### The backward scan -/

theorem findStart_le (T : Table) : ∀ s, findStart T s ≤ s
  | 0 => Nat.le_refl 0
  | s + 1 => by
    unfold findStart
    split
    · exact Nat.le_trans (findStart_le T s) (Nat.le_succ s)
    · exact Nat.le_refl _

theorem findStart_spec (T : Table) (h0 : slot T 0 ≠ none) :
    ∀ s, slot T (findStart T s) ≠ none ∧
      ∀ j, findStart T s < j → j ≤ s → slot T j = none
  | 0 => ⟨h0, fun j h1 h2 => by omega⟩
  | s + 1 => by
    unfold findStart
    split
    · rename_i hnone
      refine ⟨(findStart_spec T h0 s).1, fun j h1 h2 => ?_⟩
      rcases Nat.lt_or_ge j (s + 1) with hj | hj
      · exact (findStart_spec T h0 s).2 j h1 (by omega)
      · have : j = s + 1 := by omega
        simpa [this] using hnone
    · rename_i hsome
      exact ⟨hsome, fun j h1 h2 => by omega⟩

theorem findStart_eq_self (T : Table) (s : Nat) (h : slot T s ≠ none) :
    findStart T s = s := by
  cases s with
  | zero => rfl
  | succ s => simp only [findStart, if_neg h]

/-! ### The `_source_info` dictionary -/

theorem lookupSrc_setSrc_self : ∀ (s : List (Str × Table)) (p : Str)
    (T : Table), lookupSrc (setSrc s p T) p = some T
  | [], p, T => by simp [setSrc, lookupSrc]
  | (q, U) :: rest, p, T => by
    by_cases h : q = p
    · simp [setSrc, lookupSrc, h]
    · simp only [setSrc, if_neg h, lookupSrc]
      exact lookupSrc_setSrc_self rest p T

theorem lookupSrc_setSrc_ne : ∀ (s : List (Str × Table)) (p q : Str)
    (T : Table), q ≠ p → lookupSrc (setSrc s p T) q = lookupSrc s q
  | [], p, q, T, h => by
    simp only [setSrc, lookupSrc]
    rw [if_neg (fun hc : p = q => h hc.symm)]
  | (r, U) :: rest, p, q, T, h => by
    by_cases hr : r = p
    · subst hr
      simp only [setSrc, if_pos rfl, lookupSrc]
      rw [if_neg (fun hc : r = q => h hc.symm),
        if_neg (fun hc : r = q => h hc.symm)]
    · simp only [setSrc, if_neg hr, lookupSrc]
      by_cases hq : r = q
      · simp [hq]
      · rw [if_neg hq, if_neg hq]
        exact lookupSrc_setSrc_ne rest p q T h

/-! ### Reachability invariants -/

/-- Every classification table ever stored has a non-continuation entry in
slot 0 (the `setdefault(path, [0])` seeds it and registrations only write
concrete classifications). -/
def TablesWF (st : DebuggerState) : Prop :=
  ∀ p T, lookupSrc st.source_info p = some T → slot T 0 ≠ none

theorem send_source_info (st : DebuggerState) (m : OutMsg) :
    (send st m).source_info = st.source_info := by
  unfold send
  split <;> rfl

theorem process_set_breakpoints_source_info (st : DebuggerState)
    (p : Str) (m : Bool) (ls : List Nat) :
    (process_set_breakpoints st p m ls).1.source_info = st.source_info := by
  unfold process_set_breakpoints
  rw [send_source_info]

theorem tablesWF_init : TablesWF initState := by
  intro p T h
  simp [initState, lookupSrc] at h

theorem tablesWF_step (st : DebuggerState) (op : DebugOp)
    (h : TablesWF st) : TablesWF (step st op) := by
  cases op with
  | registerLine p l t =>
    intro q T hq
    by_cases hpq : q = p
    · subst hpq
      rw [show (step st (DebugOp.registerLine q l t)).source_info =
          setSrc st.source_info q
            (updatedTable ((lookupSrc st.source_info q).getD [some 0]) l t)
          from rfl, lookupSrc_setSrc_self] at hq
      cases hq
      by_cases hl : l = 0
      · subst hl
        rw [slot_updatedTable_self]
        simp
      · rw [slot_updatedTable_ne _ _ _ _ (fun hc => hl hc.symm)]
        cases hsrc : lookupSrc st.source_info q with
        | none => simp [hsrc, slot]
        | some T0 => simpa [hsrc] using h q T0 hsrc
    · rw [show (step st (DebugOp.registerLine p l t)).source_info =
          setSrc st.source_info p
            (updatedTable ((lookupSrc st.source_info p).getD [some 0]) l t)
          from rfl, lookupSrc_setSrc_ne _ _ _ _ hpq] at hq
      exact h q T hq
  | setBreakpoints p m ls =>
    intro q T hq
    rw [show step st (DebugOp.setBreakpoints p m ls) =
        (process_set_breakpoints st p m ls).1 from rfl,
      process_set_breakpoints_source_info] at hq
    exact h q T hq
  | setDebugConfig ms => exact h
  | connectionMade => exact h
  | sessionEnd => exact h

theorem tablesWF_runOps (ops : List DebugOp) :
    ∀ st, TablesWF st → TablesWF (runOps st ops) := by
  induction ops with
  | nil => exact fun st h => h
  | cons op rest ih =>
    intro st h
    exact ih (step st op) (tablesWF_step st op h)

theorem send_breakpoints (st : DebuggerState) (m : OutMsg) :
    (send st m).breakpoints = st.breakpoints := by
  unfold send
  split <;> rfl

theorem send_breakpoint_counter (st : DebuggerState) (m : OutMsg) :
    (send st m).breakpoint_counter = st.breakpoint_counter := by
  unfold send
  split <;> rfl

/-! ### Concrete states used by the claim theorems -/

/-- A sample runtime path. -/
def exP : Str := ['m']

/-- The classification table of the spec's worked example: slot 0 invalid,
line 3 a valid start, line 5 invalid, continuations in between. -/
def exTable : Table := [some 0, none, none, some 1, none, some 0]

/-- The registry state after the worked example's registrations
`registerLine(m, 3, valid-start)` and `registerLine(m, 5, invalid)`. -/
def exState : DebuggerState :=
  runOps initState
    [DebugOp.registerLine exP 3 1, DebugOp.registerLine exP 5 0]

/-! ### Claim C1 -/

/-- Claim C1 as stated is false: for the worked example's table, a
set-breakpoints request for line 1 reports the resolved end bound 2 — the
index of the next non-continuation entry (3) minus one — not 3. -/
theorem claim_C1_counterexample :
    ((process_set_breakpoints exState exP false [1]).2.map
        fun b => (b.verified, b.line, b.endLine))
      = [(false, some 0, some 2)] ∧
    ((false, (some 0 : Option Nat), (some 2 : Option Nat)) ≠
      (false, some 0, some 3)) := by
  decide

/-- Claim C1, amended: the table built by the registrations (0→invalid,
3→valid-start, 5→invalid) makes requested line 1 resolve to start 0, end
bound 2, unverified; lines 3 and 4 to start 3, end bound 4, verified; and
line 6 and every larger line to start 5, end bound 5, unverified.  The
reported end bound is the index of the next non-continuation entry minus
one (an inclusive bound denoting the same line set as the claim's half-open
ranges [0,3), [3,5), [5,6)); the final `min` with the table length never
alters it. -/
theorem claim_C1 :
    lookupSrc exState.source_info exP = some exTable ∧
    ((process_set_breakpoints exState exP false [1, 3, 4, 6]).2.map
        fun b => (b.verified, b.line, b.endLine))
      = [(false, some 0, some 2), (true, some 3, some 4),
         (true, some 3, some 4), (false, some 5, some 5)] ∧
    ∀ L, 6 ≤ L → resolveLine exTable L = (false, 5, 5) := by
  refine ⟨by decide, by decide, ?_⟩
  intro L hL
  have h5 : min L (exTable.length - 1) = 5 := by
    rw [show exTable.length - 1 = 5 from rfl]
    exact Nat.min_eq_right (by omega)
  unfold resolveLine
  rw [h5]
  decide

/-- Witness for the amended claim C1 at the concrete line 6. -/
theorem claim_C1_witness : resolveLine exTable 6 = (false, 5, 5) :=
  claim_C1.2.2 6 (by omega)

/-! ### Claim C2 -/

/-- Claim C2: a `registerLine(path, line, kind)` call with
`kind ∈ {invalid, valid-start}` and `line ≥ 1` leaves the table for `path`
with slot `line` equal to `kind`, slot 0 still non-continuation, length
`max (old length) (line + 1)` (so the length never decreases), and every
other slot unchanged — which for the newly created slots (out of range of
the old table, where `slot` reads `none`) means they hold continuation.
`T0` is the table the source starts from: the stored table when one
exists, the seed `[0]` installed by `setdefault` otherwise. -/
theorem claim_C2 (st : DebuggerState) (path : Str) (line kind : Nat)
    (_hk : kind = 0 ∨ kind = 1) (hl : 1 ≤ line)
    (hwf : ∀ T, lookupSrc st.source_info path = some T → slot T 0 ≠ none) :
    ∃ T', lookupSrc
        (register_path_breakpoint st path line kind).source_info path
        = some T' ∧
      slot T' line = some kind ∧
      slot T' 0 ≠ none ∧
      T'.length =
        max ((lookupSrc st.source_info path).getD [some 0]).length
          (line + 1) ∧
      ((lookupSrc st.source_info path).getD [some 0]).length ≤ T'.length ∧
      ∀ i, i ≠ line →
        slot T' i = slot ((lookupSrc st.source_info path).getD [some 0]) i := by
  refine ⟨updatedTable ((lookupSrc st.source_info path).getD [some 0])
    line kind, ?_, ?_, ?_, ?_, ?_, ?_⟩
  · exact lookupSrc_setSrc_self _ _ _
  · exact slot_updatedTable_self _ _ _
  · rw [slot_updatedTable_ne _ _ _ _ (by omega)]
    cases hsrc : lookupSrc st.source_info path with
    | none => simp [slot]
    | some T0 => simpa using hwf T0 hsrc
  · exact updatedTable_length _ _ _
  · rw [updatedTable_length]
    omega
  · exact fun i hi => slot_updatedTable_ne _ _ _ _ hi

/-- Witness for claim C2: registering line 2 as a valid start on a fresh
state. -/
theorem claim_C2_witness :
    ∃ T', lookupSrc
        (register_path_breakpoint initState ['p'] 2 1).source_info ['p']
        = some T' ∧
      slot T' 2 = some 1 ∧
      slot T' 0 ≠ none ∧
      T'.length =
        max ((lookupSrc initState.source_info ['p']).getD [some 0]).length
          (2 + 1) ∧
      ((lookupSrc initState.source_info ['p']).getD [some 0]).length ≤
        T'.length ∧
      ∀ i, i ≠ 2 →
        slot T' i =
          slot ((lookupSrc initState.source_info ['p']).getD [some 0]) i :=
  claim_C2 initState ['p'] 2 1 (Or.inr rfl) (by omega)
    (by intro T h; simp [initState, lookupSrc] at h)

/-! ### Claim C8 -/

/-- Claim C8: on every classification table reachable by the registry's
operations, the backward scan from `start = min(L, len(T) - 1)` stops at a
non-continuation slot at an index ≥ 0 — it never runs past the front of
the table, because slot 0 never holds a continuation.  `findStart` is the
scan; the conjuncts state that it lands on a non-continuation slot, at or
below the starting index, having skipped only continuation slots. -/
theorem claim_C8 (ops : List DebugOp) (p : Str) (T : Table) (L : Nat)
    (hT : lookupSrc (runOps initState ops).source_info p = some T)
    (_hL : 1 ≤ L) :
    slot T (findStart T (min L (T.length - 1))) ≠ none ∧
    findStart T (min L (T.length - 1)) ≤ min L (T.length - 1) ∧
    ∀ j, findStart T (min L (T.length - 1)) < j →
      j ≤ min L (T.length - 1) → slot T j = none := by
  have hwf := tablesWF_runOps ops initState tablesWF_init p T hT
  exact ⟨(findStart_spec T hwf _).1, findStart_le T _,
    (findStart_spec T hwf _).2⟩

/-- A reachable table used by the claim C8 witness. -/
def exT8 : Table := [some 0, none, some 1]

/-- Witness for claim C8 on the table built by a single registration at
line 2, queried at line 7. -/
theorem claim_C8_witness :
    slot exT8 (findStart exT8 (min 7 (exT8.length - 1))) ≠ none ∧
    findStart exT8 (min 7 (exT8.length - 1)) ≤ min 7 (exT8.length - 1) ∧
    ∀ j, findStart exT8 (min 7 (exT8.length - 1)) < j →
      j ≤ min 7 (exT8.length - 1) → slot exT8 j = none :=
  claim_C8 [DebugOp.registerLine ['m'] 2 1] ['m'] exT8 7 (by decide)
    (by omega)

/-! ### Claim C4 -/

theorem sbLoop_stored_source_path (mo : Bool) (tbl : Option Table)
    (sp ap : Str) : ∀ (lines : List Nat) (ctr : Nat),
    ∀ alb ∈ (sbLoop mo tbl sp ap lines ctr).1, alb.source_path = sp := by
  intro lines
  induction lines with
  | nil => intro ctr alb h; simp [sbLoop] at h
  | cons l rest ih =>
    intro ctr alb h
    unfold sbLoop at h
    by_cases hmo : mo = true
    · rw [if_pos hmo] at h
      exact ih (ctr + 1) alb h
    · rw [if_neg hmo] at h
      rcases List.mem_cons.mp h with h | h
      · rw [h]
      · exact ih (ctr + 1) alb h

/-- Claim C4: a set-breakpoints request for client path `P` keeps exactly
the previously stored breakpoints whose client source path differs from
`P` — the very same entries, unchanged, in order — followed by the
request's own newly stored breakpoints, all of which carry client source
path `P`. -/
theorem claim_C4 (st : DebuggerState) (p : Str) (modified : Bool)
    (lines : List Nat) :
    ∃ newBps,
      (process_set_breakpoints st p modified lines).1.breakpoints =
        st.breakpoints.filter (fun b => b.source_path ≠ p) ++ newBps ∧
      ∀ b ∈ newBps, b.source_path = p := by
  refine ⟨(sbLoop modified
      (lookupSrc st.source_info (applyMappings st.debug_config p)) p
      (applyMappings st.debug_config p) lines st.breakpoint_counter).1,
    ?_, ?_⟩
  · show (send _ _).breakpoints = _
    rw [send_breakpoints]
  · exact sbLoop_stored_source_path _ _ _ _ lines st.breakpoint_counter

/-! ### Claim C5 -/

theorem applyMappings_skip (ms₁ rest : List PathMapping) (p : Str)
    (h : ∀ m' ∈ ms₁, m'.local_root.isPrefixOf p = false) :
    applyMappings (ms₁ ++ rest) p = applyMappings rest p := by
  induction ms₁ with
  | nil => rfl
  | cons m ms ih =>
    have hm := h m (List.mem_cons_self m ms)
    simp only [List.cons_append, applyMappings, hm]
    exact ih fun m' hm' => h m' (List.mem_cons_of_mem m hm')

theorem convert_to_client_path_skip (ms₁ rest : List PathMapping) (p : Str)
    (h : ∀ m' ∈ ms₁, m'.remote_root.isPrefixOf p = false) :
    convert_to_client_path (ms₁ ++ rest) p = convert_to_client_path rest p := by
  induction ms₁ with
  | nil => rfl
  | cons m ms ih =>
    have hm := h m (List.mem_cons_self m ms)
    simp only [List.cons_append, convert_to_client_path, hm]
    exact ih fun m' hm' => h m' (List.mem_cons_of_mem m hm')

/-- Claim C5 as stated is false: with mappings
`[{local a, remote x}, {local b, remote xy}]` the client path `bq` is
produced by a configured mapping (its prefix `b` matches), the forward
translation yields `xyq`, but the inverse translation picks the first
mapping whose `remote_root` is a prefix (`x`) and returns `ayq ≠ bq`. -/
theorem claim_C5_counterexample :
    ((([⟨['a'], ['x']⟩, ⟨['b'], ['x', 'y']⟩] : List PathMapping).any
        fun m' => m'.local_root.isPrefixOf ['b', 'q']) = true) ∧
    convert_to_client_path [⟨['a'], ['x']⟩, ⟨['b'], ['x', 'y']⟩]
        (applyMappings [⟨['a'], ['x']⟩, ⟨['b'], ['x', 'y']⟩] ['b', 'q'])
      ≠ ['b', 'q'] := by
  decide

/-- Claim C5, amended: when the client path matches the mapping `m` (the
first whose `local_root` is a prefix), the inverse translation reproduces
the original provided no earlier mapping's `remote_root` is a prefix of
the produced runtime path — in particular always when a single mapping is
configured; and a client path matching no mapping's `local_root` is passed
through unchanged. -/
theorem claim_C5 (ms₁ ms₂ : List PathMapping) (m : PathMapping) (p : Str)
    (hskip : ∀ m' ∈ ms₁, m'.local_root.isPrefixOf p = false)
    (hm : m.local_root.isPrefixOf p = true)
    (hback : ∀ m' ∈ ms₁,
      m'.remote_root.isPrefixOf (applyMappings (ms₁ ++ m :: ms₂) p)
        = false) :
    convert_to_client_path (ms₁ ++ m :: ms₂)
        (applyMappings (ms₁ ++ m :: ms₂) p) = p ∧
    ∀ (ns : List PathMapping) (q : Str),
      (∀ m' ∈ ns, m'.local_root.isPrefixOf q = false) →
        applyMappings ns q = q := by
  obtain ⟨t, ht⟩ := List.isPrefixOf_iff_prefix.mp hm
  have hfwd : applyMappings (ms₁ ++ m :: ms₂) p = m.remote_root ++ t := by
    rw [applyMappings_skip ms₁ (m :: ms₂) p hskip]
    simp only [applyMappings, hm, if_true]
    rw [← ht, List.drop_left]
  constructor
  · rw [convert_to_client_path_skip ms₁ (m :: ms₂) _
      (fun m' hm' => hback m' hm')]
    simp only [convert_to_client_path, hfwd]
    rw [if_pos (List.isPrefixOf_iff_prefix.mpr (List.prefix_append _ _)),
      List.drop_left, ht]
  · intro ns q h
    have := applyMappings_skip ns [] q h
    simpa using this

/-- Witness for the amended claim C5 on the single mapping
`{local a, remote b}` and client path `az`. -/
theorem claim_C5_witness :
    convert_to_client_path ([] ++ (⟨['a'], ['b']⟩ : PathMapping) :: [])
        (applyMappings ([] ++ (⟨['a'], ['b']⟩ : PathMapping) :: [])
          ['a', 'z']) = ['a', 'z'] ∧
    ∀ (ns : List PathMapping) (q : Str),
      (∀ m' ∈ ns, m'.local_root.isPrefixOf q = false) →
        applyMappings ns q = q :=
  claim_C5 [] [] ⟨['a'], ['b']⟩ ['a', 'z'] (by simp) (by decide) (by simp)

/-! ### Claim C6 -/

theorem sbLoop_counter (mo : Bool) (tbl : Option Table) (sp ap : Str) :
    ∀ (lines : List Nat) (ctr : Nat),
    (sbLoop mo tbl sp ap lines ctr).2.2 = ctr + lines.length := by
  intro lines
  induction lines with
  | nil => intro ctr; simp [sbLoop]
  | cons l rest ih =>
    intro ctr
    unfold sbLoop
    by_cases hmo : mo = true
    · rw [if_pos hmo]
      show (sbLoop mo tbl sp ap rest (ctr + 1)).2.2 = _
      rw [ih (ctr + 1)]
      simp
      omega
    · rw [if_neg hmo]
      show (sbLoop mo tbl sp ap rest (ctr + 1)).2.2 = _
      rw [ih (ctr + 1)]
      simp
      omega

theorem sbLoop_stored_id_ge (mo : Bool) (tbl : Option Table) (sp ap : Str) :
    ∀ (lines : List Nat) (ctr : Nat),
    ∀ alb ∈ (sbLoop mo tbl sp ap lines ctr).1, ctr ≤ alb.id := by
  intro lines
  induction lines with
  | nil => intro ctr alb h; simp [sbLoop] at h
  | cons l rest ih =>
    intro ctr alb h
    unfold sbLoop at h
    by_cases hmo : mo = true
    · rw [if_pos hmo] at h
      exact Nat.le_of_succ_le (ih (ctr + 1) alb h)
    · rw [if_neg hmo] at h
      rcases List.mem_cons.mp h with h | h
      · rw [h]
      · exact Nat.le_of_succ_le (ih (ctr + 1) alb h)

theorem sbLoop_resp_id_bounds (mo : Bool) (tbl : Option Table) (sp ap : Str) :
    ∀ (lines : List Nat) (ctr : Nat),
    ∀ bp ∈ (sbLoop mo tbl sp ap lines ctr).2.1,
      ctr ≤ bp.id ∧ bp.id < ctr + lines.length := by
  intro lines
  induction lines with
  | nil => intro ctr bp h; simp [sbLoop] at h
  | cons l rest ih =>
    intro ctr bp h
    unfold sbLoop at h
    by_cases hmo : mo = true
    · rw [if_pos hmo] at h
      rcases List.mem_cons.mp h with h | h
      · rw [h]
        exact ⟨Nat.le_refl ctr, Nat.lt_add_of_pos_right (Nat.succ_pos _)⟩
      · have h2 := ih (ctr + 1) bp h
        have hlen : (l :: rest).length = rest.length + 1 := rfl
        omega
    · rw [if_neg hmo] at h
      rcases List.mem_cons.mp h with h | h
      · constructor
        · rw [h]
          split
          · exact Nat.le_refl ctr
          · exact Nat.le_refl ctr
        · rw [h]
          split
          · exact Nat.lt_add_of_pos_right (Nat.succ_pos _)
          · exact Nat.lt_add_of_pos_right (Nat.succ_pos _)
      · have h2 := ih (ctr + 1) bp h
        have hlen : (l :: rest).length = rest.length + 1 := rfl
        omega

theorem sbLoop_resp_ids (mo : Bool) (tbl : Option Table) (sp ap : Str) :
    ∀ (lines : List Nat) (ctr : Nat),
    (sbLoop mo tbl sp ap lines ctr).2.1.map (fun b => b.id) =
      List.range' ctr lines.length := by
  intro lines
  induction lines with
  | nil => intro ctr; simp [sbLoop]
  | cons l rest ih =>
    intro ctr
    unfold sbLoop
    by_cases hmo : mo = true
    · rw [if_pos hmo]
      show (_ :: (sbLoop mo tbl sp ap rest (ctr + 1)).2.1).map _ = _
      rw [List.map_cons, ih (ctr + 1)]
      rfl
    · rw [if_neg hmo]
      show (_ :: (sbLoop mo tbl sp ap rest (ctr + 1)).2.1).map _ = _
      rw [List.map_cons, ih (ctr + 1),
        show List.range' ctr (l :: rest).length =
          ctr :: List.range' (ctr + 1) rest.length from rfl]
      congr 1
      split <;> rfl

theorem sbLoop_modified_stored (tbl : Option Table) (sp ap : Str) :
    ∀ (lines : List Nat) (ctr : Nat),
    (sbLoop true tbl sp ap lines ctr).1 = [] := by
  intro lines
  induction lines with
  | nil => intro ctr; rfl
  | cons l rest ih =>
    intro ctr
    unfold sbLoop
    rw [if_pos rfl]
    exact ih (ctr + 1)

theorem sbLoop_modified_resp (tbl : Option Table) (sp ap : Str) :
    ∀ (lines : List Nat) (ctr : Nat),
    ∀ bp ∈ (sbLoop true tbl sp ap lines ctr).2.1,
      bp.verified = false ∧ bp.message = some BpMessage.modifiedSource := by
  intro lines
  induction lines with
  | nil => intro ctr bp h; simp [sbLoop] at h
  | cons l rest ih =>
    intro ctr bp h
    unfold sbLoop at h
    rw [if_pos rfl] at h
    rcases List.mem_cons.mp h with h | h
    · rw [h]
      exact ⟨rfl, rfl⟩
    · exact ih (ctr + 1) bp h

theorem refreshBp_fst_id (T : Table) (p : Str) (bp : AnsibleLineBreakpoint) :
    (refreshBp T p bp).1.id = bp.id := by
  unfold refreshBp
  split
  · dsimp only
    split <;> rfl
  · rfl

theorem register_breakpoints (st : DebuggerState) (p : Str) (l t : Nat) :
    (register_path_breakpoint st p l t).breakpoints =
      st.breakpoints.map fun bp => (refreshBp (regT st p l t) p bp).1 := by
  show (st.breakpoints.map _).map Prod.fst = _
  rw [List.map_map]
  rfl

theorem process_set_breakpoints_breakpoints (st : DebuggerState) (p : Str)
    (mo : Bool) (ls : List Nat) :
    (process_set_breakpoints st p mo ls).1.breakpoints =
      st.breakpoints.filter (fun b => b.source_path ≠ p) ++
        (sbLoop mo
          (lookupSrc st.source_info (applyMappings st.debug_config p)) p
          (applyMappings st.debug_config p) ls st.breakpoint_counter).1 := by
  show (send _ _).breakpoints = _
  rw [send_breakpoints]

theorem process_set_breakpoints_counter (st : DebuggerState) (p : Str)
    (mo : Bool) (ls : List Nat) :
    (process_set_breakpoints st p mo ls).1.breakpoint_counter =
      (sbLoop mo
        (lookupSrc st.source_info (applyMappings st.debug_config p)) p
        (applyMappings st.debug_config p) ls st.breakpoint_counter).2.2 := by
  show (send _ _).breakpoint_counter = _
  rw [send_breakpoint_counter]

/-- The ids in `S` stay strictly below the breakpoint counter and are never
the id of a stored breakpoint: the freshness of a consumed id is
permanent. -/
def Avoids (S : List Nat) (st : DebuggerState) : Prop :=
  (∀ bp ∈ st.breakpoints, bp.id ∉ S) ∧ ∀ i ∈ S, i < st.breakpoint_counter

theorem avoids_step (S : List Nat) (st : DebuggerState) (op : DebugOp)
    (h : Avoids S st) : Avoids S (step st op) := by
  obtain ⟨h1, h2⟩ := h
  cases op with
  | registerLine p l t =>
    refine ⟨?_, h2⟩
    intro bp hbp
    rw [show step st (DebugOp.registerLine p l t) =
      register_path_breakpoint st p l t from rfl,
      register_breakpoints] at hbp
    obtain ⟨a, ha, rfl⟩ := List.mem_map.mp hbp
    rw [refreshBp_fst_id]
    exact h1 a ha
  | setBreakpoints p mo ls =>
    constructor
    · intro bp hbp
      rw [show step st (DebugOp.setBreakpoints p mo ls) =
        (process_set_breakpoints st p mo ls).1 from rfl,
        process_set_breakpoints_breakpoints] at hbp
      rcases List.mem_append.mp hbp with hbp | hbp
      · exact h1 bp (List.mem_of_mem_filter hbp)
      · have hge := sbLoop_stored_id_ge _ _ _ _ ls st.breakpoint_counter
          bp hbp
        intro hmem
        exact absurd (h2 bp.id hmem) (by omega)
    · intro i hi
      rw [show step st (DebugOp.setBreakpoints p mo ls) =
        (process_set_breakpoints st p mo ls).1 from rfl,
        process_set_breakpoints_counter, sbLoop_counter]
      have := h2 i hi
      omega
  | setDebugConfig ms => exact ⟨h1, h2⟩
  | connectionMade => exact ⟨h1, h2⟩
  | sessionEnd => exact ⟨h1, h2⟩

theorem avoids_runOps (S : List Nat) (ops : List DebugOp) :
    ∀ st, Avoids S st → Avoids S (runOps st ops) := by
  induction ops with
  | nil => exact fun st h => h
  | cons op rest ih =>
    intro st h
    exact ih (step st op) (avoids_step S st op h)

theorem firstBp_mem : ∀ (bps : List AnsibleLineBreakpoint) (p : Str)
    (l : Nat) (b : AnsibleLineBreakpoint), firstBp bps p l = some b →
    b ∈ bps := by
  intro bps
  induction bps with
  | nil => intro p l b h; simp [firstBp] at h
  | cons a rest ih =>
    intro p l b h
    unfold firstBp at h
    split at h
    · cases h
      exact List.mem_cons_self a rest
    · exact List.mem_cons_of_mem a (ih p l b h)

theorem get_breakpoint_mem (st : DebuggerState) (p : Str) (l : Nat)
    (b : AnsibleLineBreakpoint) (h : get_breakpoint st p l = some b) :
    b ∈ st.breakpoints := by
  unfold get_breakpoint at h
  split at h
  · exact firstBp_mem st.breakpoints p l b h
  · cases h

/-- Claim C6: a set-breakpoints request with the source-modified flag set
yields one response entry per requested line, each unverified with the
"Cannot set breakpoint on a modified source" message and consuming a fresh
strictly-increasing breakpoint id; none of the entries is stored, and
after any further sequence of registry operations no `lookup`
(`get_breakpoint`) call can return a stored breakpoint carrying one of
those ids. -/
theorem claim_C6 (st : DebuggerState) (p : Str) (lines : List Nat)
    (hinv : ∀ bp ∈ st.breakpoints, bp.id < st.breakpoint_counter) :
    ((process_set_breakpoints st p true lines).2.length = lines.length) ∧
    (∀ bp ∈ (process_set_breakpoints st p true lines).2,
      bp.verified = false ∧ bp.message = some BpMessage.modifiedSource) ∧
    ((process_set_breakpoints st p true lines).2.map (fun b => b.id) =
      List.range' st.breakpoint_counter lines.length) ∧
    (∀ ops (path : Str) (line : Nat) b,
      get_breakpoint
          (runOps (process_set_breakpoints st p true lines).1 ops) path line
        = some b →
      ∀ bp ∈ (process_set_breakpoints st p true lines).2, b.id ≠ bp.id) := by
  have hresp : (process_set_breakpoints st p true lines).2 =
      (sbLoop true
        (lookupSrc st.source_info (applyMappings st.debug_config p)) p
        (applyMappings st.debug_config p) lines st.breakpoint_counter).2.1 :=
    rfl
  refine ⟨?_, ?_, ?_, ?_⟩
  · rw [hresp, show lines.length = (List.range' st.breakpoint_counter
      lines.length).length from (List.length_range' _ _ _).symm,
      ← sbLoop_resp_ids true
        (lookupSrc st.source_info (applyMappings st.debug_config p)) p
        (applyMappings st.debug_config p) lines st.breakpoint_counter]
    exact (List.length_map _ _).symm
  · rw [hresp]
    exact sbLoop_modified_resp _ _ _ lines st.breakpoint_counter
  · rw [hresp]
    exact sbLoop_resp_ids _ _ _ _ lines st.breakpoint_counter
  · intro ops path line b hget bp hbp
    have havoid : Avoids ((process_set_breakpoints st p true lines).2.map
        (fun x => x.id)) (process_set_breakpoints st p true lines).1 := by
      constructor
      · intro b' hb'
        rw [process_set_breakpoints_breakpoints,
          sbLoop_modified_stored, List.append_nil] at hb'
        have hlt := hinv b' (List.mem_of_mem_filter hb')
        intro hmem
        obtain ⟨x, hx, hxid⟩ := List.mem_map.mp hmem
        rw [hresp] at hx
        have := (sbLoop_resp_id_bounds _ _ _ _ lines
          st.breakpoint_counter x hx).1
        omega
      · intro i hi
        obtain ⟨x, hx, hxid⟩ := List.mem_map.mp hi
        rw [hresp] at hx
        have := (sbLoop_resp_id_bounds _ _ _ _ lines
          st.breakpoint_counter x hx).2
        rw [process_set_breakpoints_counter, sbLoop_counter]
        omega
    have hfinal := avoids_runOps _ ops _ havoid
    have hbmem := get_breakpoint_mem _ _ _ _ hget
    have hnot := hfinal.1 b hbmem
    intro heq
    exact hnot (List.mem_map.mpr ⟨bp, hbp, heq.symm⟩)

/-- Witness for claim C6: a modified-source request for one line on the
fresh state. -/
theorem claim_C6_witness :
    ((process_set_breakpoints initState ['w'] true [4]).2.length
      = ([4] : List Nat).length) ∧
    (∀ bp ∈ (process_set_breakpoints initState ['w'] true [4]).2,
      bp.verified = false ∧ bp.message = some BpMessage.modifiedSource) ∧
    ((process_set_breakpoints initState ['w'] true [4]).2.map
        (fun b => b.id)
      = List.range' initState.breakpoint_counter ([4] : List Nat).length) ∧
    (∀ ops (path : Str) (line : Nat) b,
      get_breakpoint
          (runOps (process_set_breakpoints initState ['w'] true [4]).1 ops)
          path line
        = some b →
      ∀ bp ∈ (process_set_breakpoints initState ['w'] true [4]).2,
        b.id ≠ bp.id) :=
  claim_C6 initState ['w'] [4] (by intro bp h; simp [initState] at h)

/-! ### Claim C7 -/

theorem firstBp_eq_some_iff : ∀ (bps : List AnsibleLineBreakpoint)
    (p : Str) (l : Nat) (b : AnsibleLineBreakpoint),
    firstBp bps p l = some b ↔
      bpMatches b p l = true ∧
      ∃ pre post, bps = pre ++ b :: post ∧
        ∀ x ∈ pre, bpMatches x p l = false := by
  intro bps
  induction bps with
  | nil =>
    intro p l b
    constructor
    · intro h
      simp [firstBp] at h
    · rintro ⟨-, pre, post, h, -⟩
      exact absurd h (by simp)
  | cons a rest ih =>
    intro p l b
    constructor
    · intro h
      unfold firstBp at h
      by_cases ha : bpMatches a p l = true
      · rw [if_pos ha] at h
        cases h
        exact ⟨ha, [], rest, rfl, by simp⟩
      · rw [if_neg ha] at h
        obtain ⟨hb, pre, post, heq, hall⟩ := (ih p l b).mp h
        refine ⟨hb, a :: pre, post, by rw [heq]; rfl, ?_⟩
        intro x hx
        rcases List.mem_cons.mp hx with hx | hx
        · rw [hx]
          exact Bool.eq_false_iff.mpr ha
        · exact hall x hx
    · rintro ⟨hb, pre, post, heq, hall⟩
      cases pre with
      | nil =>
        simp only [List.nil_append] at heq
        injection heq with h1 h2
        subst h1
        subst h2
        unfold firstBp
        rw [if_pos hb]
      | cons c pre' =>
        simp only [List.cons_append] at heq
        injection heq with h1 h2
        have hc : bpMatches a p l = false := by
          rw [h1]
          exact hall c (List.mem_cons_self _ _)
        unfold firstBp
        rw [if_neg (by simp [hc])]
        exact (ih p l b).mpr
          ⟨hb, pre', post, h2, fun x hx => hall x (List.mem_cons_of_mem _ hx)⟩

/-- Claim C7: `get_breakpoint` returns nothing whenever the send queue is
inactive (no transport session), regardless of the stored breakpoints; with
an active session it returns exactly the first stored breakpoint, in
registration order, that matches the queried runtime path and line. -/
theorem claim_C7 (st : DebuggerState) (path : Str) (line : Nat) :
    (st.send_queue_active = false → get_breakpoint st path line = none) ∧
    (st.send_queue_active = true → ∀ b,
      get_breakpoint st path line = some b ↔
        bpMatches b path line = true ∧
        ∃ pre post, st.breakpoints = pre ++ b :: post ∧
          ∀ x ∈ pre, bpMatches x path line = false) := by
  constructor
  · intro h
    unfold get_breakpoint
    rw [h]
    simp
  · intro h b
    unfold get_breakpoint
    rw [h, if_pos rfl]
    exact firstBp_eq_some_iff st.breakpoints path line b

/-- State with one stored not-loaded breakpoint for path `q`, reached
without any transport session (the send queue was never activated). -/
def stIn : DebuggerState :=
  runOps initState [DebugOp.setBreakpoints ['q'] false [2]]

/-- State with one stored not-loaded breakpoint for path `q`, reached with
an active transport session. -/
def stQ : DebuggerState :=
  runOps initState
    [DebugOp.connectionMade, DebugOp.setBreakpoints ['q'] false [2]]

/-- The single breakpoint stored in `stIn` and `stQ`. -/
def albQ : AnsibleLineBreakpoint :=
  { id := 1
    source_breakpoint_line := 2
    breakpoint :=
      { id := 1
        verified := false
        message := some BpMessage.notLoaded
        line := some 2
        endLine := none }
    actual_path := ['q']
    source_path := ['q'] }

/-- Witness for claim C7: the same matching stored breakpoint is invisible
to `get_breakpoint` without a session and returned with one. -/
theorem claim_C7_witness :
    albQ ∈ stIn.breakpoints ∧
    bpMatches albQ ['q'] 5 = true ∧
    get_breakpoint stIn ['q'] 5 = none ∧
    get_breakpoint stQ ['q'] 5 = some albQ := by
  refine ⟨by decide, by decide, ?_, ?_⟩
  · exact (claim_C7 stIn ['q'] 5).1 (by decide)
  · exact ((claim_C7 stQ ['q'] 5).2 (by decide) albQ).mpr
      ⟨by decide, [], [], by decide, by simp⟩

/-! ### Claim C10 -/

theorem firstBp_matches (bps : List AnsibleLineBreakpoint) (p : Str)
    (l : Nat) (b : AnsibleLineBreakpoint) (h : firstBp bps p l = some b) :
    bpMatches b p l = true :=
  ((firstBp_eq_some_iff bps p l b).mp h).1

theorem firstBp_append_skip (p : Str) (l : Nat) :
    ∀ (pre rest : List AnsibleLineBreakpoint),
    (∀ x ∈ pre, bpMatches x p l = false) →
    firstBp (pre ++ rest) p l = firstBp rest p l := by
  intro pre
  induction pre with
  | nil => intro rest _; rfl
  | cons a pre' ih =>
    intro rest h
    show (if bpMatches a p l = true then some a
      else firstBp (pre' ++ rest) p l) = firstBp rest p l
    rw [if_neg (by simp [h a (List.mem_cons_self _ _)])]
    exact ih rest fun x hx => h x (List.mem_cons_of_mem _ hx)

theorem firstBp_isSome_of_matches (p : Str) (l : Nat) :
    ∀ (bps : List AnsibleLineBreakpoint) (x : AnsibleLineBreakpoint),
    x ∈ bps → bpMatches x p l = true →
    ∃ b, firstBp bps p l = some b := by
  intro bps
  induction bps with
  | nil => intro x hx; simp at hx
  | cons a rest ih =>
    intro x hx hm
    by_cases ha : bpMatches a p l = true
    · exact ⟨a, by unfold firstBp; rw [if_pos ha]⟩
    · rcases List.mem_cons.mp hx with hx | hx
      · rw [hx] at hm
        exact absurd hm ha
      · obtain ⟨b, hb⟩ := ih x hx hm
        exact ⟨b, by unfold firstBp; rw [if_neg ha]; exact hb⟩

/-- Claim C10 as stated is false: with two stored unbounded not-loaded
breakpoints for the same path, the second one satisfies every condition of
the claim at queried line 5, yet `get_breakpoint` does not return it — it
returns the first match in registration order. -/
def stTwo : DebuggerState :=
  runOps initState
    [DebugOp.connectionMade, DebugOp.setBreakpoints ['q'] false [2, 3]]

/-- The second breakpoint stored in `stTwo`. -/
def albQ2 : AnsibleLineBreakpoint :=
  { id := 2
    source_breakpoint_line := 3
    breakpoint :=
      { id := 2
        verified := false
        message := some BpMessage.notLoaded
        line := some 3
        endLine := none }
    actual_path := ['q']
    source_path := ['q'] }

/-- Counterexample to claim C10 as stated: `albQ2` is stored, has no
resolved end line, its runtime path matches, the queried line 5 is at or
after its requested line 3, the session is active — and yet lookup does
not return `albQ2` (an earlier stored breakpoint also matches). -/
theorem claim_C10_counterexample :
    stTwo.send_queue_active = true ∧
    albQ2 ∈ stTwo.breakpoints ∧
    albQ2.actual_path = ['q'] ∧
    albQ2.breakpoint.endLine = none ∧
    albQ2.breakpoint.line = some 3 ∧
    get_breakpoint stTwo ['q'] 5 ≠ some albQ2 := by
  decide

/-- Claim C10, amended: a stored breakpoint with an absent resolved end
line matches every queried line at or after its requested line (an absent
start line matches every line), with no verification requirement; with an
active session, `lookup` therefore returns a matching breakpoint — and
returns this very breakpoint whenever no earlier stored breakpoint also
matches. -/
theorem claim_C10 (st : DebuggerState) (path : Str) (line : Nat)
    (bp : AnsibleLineBreakpoint) (pre post : List AnsibleLineBreakpoint)
    (hact : st.send_queue_active = true)
    (hbps : st.breakpoints = pre ++ bp :: post)
    (hpath : bp.actual_path = path)
    (hend : bp.breakpoint.endLine = none)
    (hline : bp.breakpoint.line = none ∨
      ∃ l0, bp.breakpoint.line = some l0 ∧ l0 ≤ line) :
    bpMatches bp path line = true ∧
    (∃ b, get_breakpoint st path line = some b ∧
      bpMatches b path line = true) ∧
    ((∀ x ∈ pre, bpMatches x path line = false) →
      get_breakpoint st path line = some bp) := by
  have hm : bpMatches bp path line = true := by
    unfold bpMatches
    rw [hpath, hend]
    rcases hline with h | ⟨l0, hl0, hle⟩
    · rw [h]
      simp
    · rw [hl0]
      simp [hle]
  have hmem : bp ∈ st.breakpoints := by
    rw [hbps]
    exact List.mem_append_right pre (List.mem_cons_self bp post)
  refine ⟨hm, ?_, ?_⟩
  · obtain ⟨b, hb⟩ :=
      firstBp_isSome_of_matches path line st.breakpoints bp hmem hm
    refine ⟨b, ?_, firstBp_matches _ _ _ _ hb⟩
    unfold get_breakpoint
    rw [hact, if_pos rfl]
    exact hb
  · intro hpre
    unfold get_breakpoint
    rw [hact, if_pos rfl, hbps, firstBp_append_skip path line pre _ hpre]
    unfold firstBp
    rw [if_pos hm]

/-- Witness for the amended claim C10 on the single stored unbounded
breakpoint of `stQ`, queried far past its requested line. -/
theorem claim_C10_witness :
    bpMatches albQ ['q'] 7 = true ∧
    (∃ b, get_breakpoint stQ ['q'] 7 = some b ∧
      bpMatches b ['q'] 7 = true) ∧
    ((∀ x ∈ ([] : List AnsibleLineBreakpoint),
        bpMatches x ['q'] 7 = false) →
      get_breakpoint stQ ['q'] 7 = some albQ) :=
  claim_C10 stQ ['q'] 7 albQ [] [] (by decide) (by decide) (by decide)
    (by decide) (Or.inr ⟨2, by decide, by omega⟩)

/-! ### Claim C3 -/

/-- The condition under which the refresh loop of
`register_path_breakpoint` replaces a stored breakpoint and emits a
breakpoint-changed event: the re-resolved verified flag, start line or end
line differs from the stored one. -/
def changedAfter (T : Table) (bp : AnsibleLineBreakpoint) : Prop :=
  bp.breakpoint.verified ≠
      (resolvedBreakpoint T bp.id bp.source_breakpoint_line).verified ∨
    bp.breakpoint.line ≠
      (resolvedBreakpoint T bp.id bp.source_breakpoint_line).line ∨
    bp.breakpoint.endLine ≠
      (resolvedBreakpoint T bp.id bp.source_breakpoint_line).endLine

theorem refreshBp_other (T : Table) (p : Str)
    (bp : AnsibleLineBreakpoint) (h : bp.actual_path ≠ p) :
    refreshBp T p bp = (bp, none) := by
  unfold refreshBp
  rw [if_neg h]

theorem refreshBp_changed (T : Table) (p : Str)
    (bp : AnsibleLineBreakpoint) (h : bp.actual_path = p)
    (hch : changedAfter T bp) :
    refreshBp T p bp =
      ({ bp with
          breakpoint := resolvedBreakpoint T bp.id bp.source_breakpoint_line },
        some (OutMsg.breakpointChanged
          (resolvedBreakpoint T bp.id bp.source_breakpoint_line))) := by
  unfold changedAfter at hch
  unfold refreshBp
  rw [if_pos h]
  dsimp only
  rw [if_pos hch]

theorem refreshBp_unchanged (T : Table) (p : Str)
    (bp : AnsibleLineBreakpoint) (h : bp.actual_path = p)
    (hch : ¬ changedAfter T bp) :
    refreshBp T p bp = (bp, none) := by
  unfold changedAfter at hch
  unfold refreshBp
  rw [if_pos h]
  dsimp only
  rw [if_neg hch]

theorem register_sent (st : DebuggerState) (p : Str) (l t : Nat) :
    (register_path_breakpoint st p l t).sent =
      st.sent ++
        (if st.send_queue_active then
          (st.breakpoints.map (refreshBp (regT st p l t) p)).filterMap
            Prod.snd
        else []) :=
  rfl

theorem resolved_verified_at_registered (T0 : Table) (line bp_id : Nat) :
    (resolvedBreakpoint (updatedTable T0 line 1) bp_id line).verified
      = true := by
  have hslot : slot (updatedTable T0 line 1) line = some 1 :=
    slot_updatedTable_self T0 line 1
  have hmin : min line ((updatedTable T0 line 1).length - 1) = line := by
    rw [updatedTable_length]
    omega
  show (resolveLine (updatedTable T0 line 1) line).1 = true
  unfold resolveLine
  rw [hmin, findStart_eq_self _ _ (by rw [hslot]; simp)]
  simp [hslot]

/-- Claim C3 as stated is false: with no transport session active, a
registration that flips a stored breakpoint's verified flag re-resolves
and updates the stored breakpoint but enqueues nothing — the
breakpoint-changed event is discarded by `send`, so "enqueued iff the
resolution changed" fails. -/
theorem claim_C3_counterexample :
    stIn.send_queue_active = false ∧
    (stIn.breakpoints.map fun b => b.breakpoint.verified) = [false] ∧
    ((register_path_breakpoint stIn ['q'] 2 1).breakpoints.map
      fun b => b.breakpoint.verified) = [true] ∧
    (register_path_breakpoint stIn ['q'] 2 1).sent = [] ∧
    stIn.sent = [] := by
  decide

/-- Claim C3, amended: assuming a transport session is active
(send-queue-active true; otherwise `send` discards the events), after
`registerLine(path, line, kind)` every stored breakpoint for a different
runtime path is unchanged, every stored breakpoint for `path` is
re-resolved against the updated table `regT st path line kind` — replaced
exactly when its verified flag, start line or end line changed — and the
enqueued messages are exactly one breakpoint-changed event per changed
breakpoint, carrying its new state.  In particular a stored unverified
breakpoint for `path` whose requested line is registered as a valid start
becomes verified and its breakpoint-changed event is enqueued. -/
theorem claim_C3 (st : DebuggerState) (path : Str) (line kind : Nat)
    (hact : st.send_queue_active = true) :
    List.Forall₂ (fun bp bp' =>
        (bp.actual_path ≠ path → bp' = bp) ∧
        (bp.actual_path = path →
          changedAfter (regT st path line kind) bp →
          bp' = { bp with
            breakpoint := resolvedBreakpoint (regT st path line kind) bp.id
              bp.source_breakpoint_line }) ∧
        (bp.actual_path = path →
          ¬ changedAfter (regT st path line kind) bp → bp' = bp))
      st.breakpoints
      (register_path_breakpoint st path line kind).breakpoints ∧
    (∃ evs,
      (register_path_breakpoint st path line kind).sent = st.sent ++ evs ∧
      (∀ e ∈ evs, ∃ bp ∈ st.breakpoints, bp.actual_path = path ∧
        changedAfter (regT st path line kind) bp ∧
        e = OutMsg.breakpointChanged
          (resolvedBreakpoint (regT st path line kind) bp.id
            bp.source_breakpoint_line)) ∧
      (∀ bp ∈ st.breakpoints, bp.actual_path = path →
        changedAfter (regT st path line kind) bp →
        OutMsg.breakpointChanged
          (resolvedBreakpoint (regT st path line kind) bp.id
            bp.source_breakpoint_line) ∈ evs)) ∧
    (∀ bp ∈ st.breakpoints, bp.actual_path = path →
      bp.breakpoint.verified = false → kind = 1 →
      bp.source_breakpoint_line = line →
      (resolvedBreakpoint (regT st path line kind) bp.id
          bp.source_breakpoint_line).verified = true ∧
      OutMsg.breakpointChanged
        (resolvedBreakpoint (regT st path line kind) bp.id
          bp.source_breakpoint_line)
        ∈ (register_path_breakpoint st path line kind).sent) := by
  have hevs :
      (register_path_breakpoint st path line kind).sent =
        st.sent ++ (st.breakpoints.map
          (refreshBp (regT st path line kind) path)).filterMap Prod.snd := by
    rw [register_sent, hact, if_pos rfl]
  have hmemback : ∀ bp ∈ st.breakpoints, bp.actual_path = path →
      changedAfter (regT st path line kind) bp →
      OutMsg.breakpointChanged
        (resolvedBreakpoint (regT st path line kind) bp.id
          bp.source_breakpoint_line)
        ∈ (st.breakpoints.map
          (refreshBp (regT st path line kind) path)).filterMap Prod.snd := by
    intro bp hbp heq hch
    refine List.mem_filterMap.mpr
      ⟨refreshBp (regT st path line kind) path bp,
        List.mem_map_of_mem _ hbp, ?_⟩
    rw [refreshBp_changed _ _ _ heq hch]
  refine ⟨?_, ⟨_, hevs, ?_, hmemback⟩, ?_⟩
  · rw [register_breakpoints]
    apply List.forall₂_map_right_iff.mpr
    apply List.forall₂_same.mpr
    intro bp hbp
    by_cases heq : bp.actual_path = path
    · by_cases hch : changedAfter (regT st path line kind) bp
      · rw [show (refreshBp (regT st path line kind) path bp).1 =
            { bp with
              breakpoint := resolvedBreakpoint (regT st path line kind) bp.id
                bp.source_breakpoint_line } from
          by rw [refreshBp_changed _ _ _ heq hch]]
        exact ⟨fun h => absurd heq h, fun _ _ => rfl,
          fun _ h => absurd hch h⟩
      · rw [show (refreshBp (regT st path line kind) path bp).1 = bp from
          by rw [refreshBp_unchanged _ _ _ heq hch]]
        exact ⟨fun _ => rfl, fun _ h => absurd h hch, fun _ _ => rfl⟩
    · rw [show (refreshBp (regT st path line kind) path bp).1 = bp from
        by rw [refreshBp_other _ _ _ heq]]
      exact ⟨fun _ => rfl, fun h => absurd h heq, fun _ _ => rfl⟩
  · intro e he
    obtain ⟨a, ha, hae⟩ := List.mem_filterMap.mp he
    obtain ⟨bp, hbp, rfl⟩ := List.mem_map.mp ha
    by_cases heq : bp.actual_path = path
    · by_cases hch : changedAfter (regT st path line kind) bp
      · refine ⟨bp, hbp, heq, hch, ?_⟩
        rw [refreshBp_changed _ _ _ heq hch] at hae
        cases hae
        rfl
      · rw [refreshBp_unchanged _ _ _ heq hch] at hae
        cases hae
    · rw [refreshBp_other _ _ _ heq] at hae
      cases hae
  · intro bp hbp heq hver hkind hline
    subst hkind
    have hres : (resolvedBreakpoint (regT st path line 1) bp.id
        bp.source_breakpoint_line).verified = true := by
      rw [hline]
      exact resolved_verified_at_registered _ line bp.id
    have hch : changedAfter (regT st path line 1) bp :=
      Or.inl (by rw [hver, hres]; simp)
    refine ⟨hres, ?_⟩
    rw [hevs]
    exact List.mem_append_right _ (hmemback bp hbp heq hch)

/-- Witness for the amended claim C3: registering line 2 as a valid start
on `stQ` (active session, one stored unverified breakpoint for `q` at
requested line 2) enqueues the breakpoint-changed event with the verified
resolution. -/
theorem claim_C3_witness :
    (resolvedBreakpoint (regT stQ ['q'] 2 1) 1 2).verified = true ∧
    OutMsg.breakpointChanged (resolvedBreakpoint (regT stQ ['q'] 2 1) 1 2)
      ∈ (register_path_breakpoint stQ ['q'] 2 1).sent :=
  (claim_C3 stQ ['q'] 2 1 (by decide)).2.2 albQ (by decide) (by decide)
    (by decide) rfl (by decide)

end Ansibug
